import Mathlib

/-!
# open62541Cpp: property tree and server hooks

A verification development over `include/open62541cpp/propertytree.h` and
`include/open62541cpp/open62541server.h`.

## Representation

* `Node<K,T>` owns its children through `std::map<K, Node*>`.  The map is an
  association list kept in strictly increasing key order (the iteration order
  of `std::map`); an entry whose pointer is `nullptr` holds `none`.
* A `Node*` that designates a node inside the tree below the receiver is the
  list of map keys leading to it (`Loc`); `nullptr` is `none`.  A `Node*` to a
  node just obtained from `new` is the node value itself, handed over to the
  map that takes ownership.
* `m_pParent` is either `nullptr` or the node whose child map holds the node:
  the only constructor call that sets it is `createChild` with its default
  argument.
* Undefined behaviour (reading `path[depth]` out of range, dereferencing a
  null pointer) makes an operation return `none`.
* Memory release (`delete`) has no observable effect on the values modelled.
-/

namespace Open62541

/-- The `int` obtained from a `size_t` by `static_cast<int>` / `(int)`. -/
def toInt32 (n : Nat) : Int :=
  ((n + 2 ^ 31) % 2 ^ 32 : Nat) - (2 ^ 31 : Int)

/-- The class `NodePath<T>`: a `std::vector<T>`. -/
abbrev NodePath (K : Type) := List K

/-- The value of `Node::m_pParent`: `nullptr`, or the node owning this one. -/
inductive ParentPtr where
  | null
  | owner
  deriving DecidableEq, Repr

/-- The class `Node<K,T>`: `m_name`, `m_data`, `m_pParent`, `m_children`. -/
inductive Node (K T : Type) where
  | mk (m_name : K) (m_data : T) (m_pParent : ParentPtr)
      (m_children : List (K × Option (Node K T)))

/-- The type `Node::ChildMap`, a `std::map<K, Node*>` in key order. -/
abbrev ChildMap (K T : Type) := List (K × Option (Node K T))

/-- A `Node*` into the tree below a receiver: the map keys leading to the node. -/
abbrev Loc (K : Type) := List K

namespace ChildMap

variable {K T : Type} [LinearOrder K]

/-- The call `std::map::find`: the stored pointer, `none` when the key is absent. -/
def lookup : ChildMap K T → K → Option (Option (Node K T))
  | [], _ => none
  | (k, v) :: rest, key => if k = key then some v else lookup rest key

/-- The assignment `m[key] = v`: overwrite the entry or insert it in key order. -/
def assign : ChildMap K T → K → Option (Node K T) → ChildMap K T
  | [], key, v => [(key, v)]
  | (k, w) :: rest, key, v =>
    if key < k then (key, v) :: (k, w) :: rest
    else if k = key then (key, v) :: rest
    else (k, w) :: assign rest key v

/-- The call `std::map::erase(key)`. -/
def erase : ChildMap K T → K → ChildMap K T
  | [], _ => []
  | (k, w) :: rest, key => if k = key then rest else (k, w) :: erase rest key

/-- The rvalue `m[key]`: the stored pointer, and the map in which a missing key
has been inserted with a null pointer. -/
def subscript (m : ChildMap K T) (key : K) : Option (Node K T) × ChildMap K T :=
  match lookup m key with
  | some v => (v, m)
  | none => (none, assign m key none)

end ChildMap

namespace Node

variable {K T : Type}

/-- The accessor `name()`. -/
def name : Node K T → K
  | mk n _ _ _ => n

/-- The accessors `data()` and `constData()`. -/
def data : Node K T → T
  | mk _ d _ _ => d

/-- The accessor `parent()`. -/
def parent : Node K T → ParentPtr
  | mk _ _ p _ => p

/-- The accessors `children()` and `constChildren()`. -/
def children : Node K T → ChildMap K T
  | mk _ _ _ c => c

/-- The accessor `totalChildren()`: `m_children.size()`. -/
def totalChildren (n : Node K T) : Nat := n.children.length

/-- The mutator `setData`. -/
def setData (n : Node K T) (d : T) : Node K T :=
  mk n.name d n.parent n.children

/-- The mutator `setName`. -/
def setName (n : Node K T) (s : K) : Node K T :=
  mk s n.data n.parent n.children

/-- The node with `m_children` replaced. -/
def setChildren (n : Node K T) (c : ChildMap K T) : Node K T :=
  mk n.name n.data n.parent c

/-- The method `clear()`: every child is deleted and the map emptied. -/
def clear (n : Node K T) : Node K T := n.setChildren []

/-- The constructor `Node()`. -/
def new [Inhabited K] [Inhabited T] : Node K T := mk default default .null []

/-- The constructor `Node(name, parent)` called with a non-null parent. -/
def newChild [Inhabited T] (name : K) : Node K T := mk name default .owner []

/-- The constructor `Node(name)`, parent defaulted to `nullptr`. -/
def named [Inhabited T] (name : K) : Node K T := mk name default .null []

variable [LinearOrder K]

/-- The method `child(name)`: `return m_children[name]`. -/
def child (n : Node K T) (name : K) : Option (Loc K) × Node K T :=
  let r := ChildMap.subscript n.children name
  (r.1.map (fun _ => [name]), n.setChildren r.2)

/-- The method `hasChild(name)`: `return m_children[name] != nullptr`. -/
def hasChild (n : Node K T) (name : K) : Bool × Node K T :=
  let r := ChildMap.subscript n.children name
  (r.1.isSome, n.setChildren r.2)

/-- The effect of `delete` on the map holding the deleted child: the destructor
of a child whose parent is set erases the key `name()` from the parent's map. -/
def detach (m : ChildMap K T) (pNode : Option (Node K T)) : ChildMap K T :=
  match pNode with
  | some c => if c.parent = ParentPtr.owner then ChildMap.erase m c.name else m
  | none => m

/-- The method `addChild(pNode)` for a node fresh from `new`:
`if (hasChild(name)) { delete m_children[name]; m_children.erase(name); }`
and then `m_children[name] = pNode`. -/
def addChild (n : Node K T) (pNode : Node K T) : Node K T :=
  let r := n.hasChild pNode.name
  let n1 := r.2
  let n2 :=
    if r.1 then
      let old := ChildMap.subscript n1.children pNode.name
      n1.setChildren (ChildMap.erase (detach old.2 old.1) pNode.name)
    else n1
  n2.setChildren (ChildMap.assign n2.children pNode.name (some pNode))

/-- The method `createChild(name)` with `pNode` defaulted: the parent is `this`. -/
def createChild [Inhabited T] (n : Node K T) (name : K) : Loc K × Node K T :=
  let pNewNode : Node K T := newChild name
  ([pNewNode.name], n.addChild pNewNode)

/-- The call `p->f(...)` through a pointer `p` into the tree below `n`: `f` runs
on the designated node, which is updated in place; a pointer that designates no
node makes the call undefined. -/
def through {α : Type} (n : Node K T) :
    Loc K → (Node K T → Option (α × Node K T)) → Option (α × Node K T)
  | [], f => f n
  | k :: ks, f =>
    match ChildMap.lookup n.children k with
    | some (some c) =>
      match through c ks f with
      | some (a, c1) => some (a, n.setChildren (ChildMap.assign n.children k (some c1)))
      | none => none
    | _ => none

/-- The node a pointer designates. -/
def deref (n : Node K T) (p : Loc K) : Option (Node K T) :=
  (through n p (fun m => some (m, m))).map Prod.fst

/-- The method `find(path, depth)`, by recursion on the number of path elements
from `depth` on: with none left `path[depth]` is out of range. -/
def findFrom : Nat → Node K T → NodePath K → Nat → Option (Option (Loc K) × Node K T)
  | 0, _, _, _ => none
  | gas + 1, n, path, depth =>
    match path[depth]? with
    | none => none
    | some key =>
      let r := n.child key
      match r.1 with
      | some pChild =>
        if ((depth + 1 : Nat) : Int) < toInt32 path.length then
          match through r.2 pChild (fun c => findFrom gas c path (depth + 1)) with
          | some (res, n1) => some (res.map (fun q => pChild ++ q), n1)
          | none => none
        else some (none, r.2)
      | none => some (none, r.2)

/-- The method `find(const Path& path, int depth = 0)`: the pointer returned and
the receiver afterwards. -/
def find (n : Node K T) (path : NodePath K) (depth : Nat) :
    Option (Option (Loc K) × Node K T) :=
  findFrom (path.length - depth) n path depth

/-- The loop `while (pNode->hasChild(path[depth])) pNode = pNode->child(path[depth++])`
of `add`, by recursion on the number of path elements from `depth` on. -/
def addWhile : Nat → Node K T → Loc K → NodePath K → Nat →
    Option ((Loc K × Nat) × Node K T)
  | 0, _, _, _, _ => none
  | gas + 1, n, pNode, path, depth =>
    match path[depth]? with
    | none => none
    | some key =>
      match through n pNode (fun m => some (m.hasChild key)) with
      | none => none
      | some (false, n1) => some ((pNode, depth), n1)
      | some (true, n1) =>
        match through n1 pNode (fun m => some (m.child key)) with
        | some (some q, n2) => addWhile gas n2 (pNode ++ q) path (depth + 1)
        | _ => none

/-- The loop `for (unsigned i = depth; i < path.size(); i++) pNode = pNode->createChild(path[i])`
of `add`; `i` does not wrap for a path of fewer than 2^32 elements. -/
def addFor [Inhabited T] (n : Node K T) (pNode : Loc K) (path : NodePath K) (depth : Nat) :
    Option (Loc K × Node K T) :=
  (path.drop depth).foldlM
    (fun (st : Loc K × Node K T) key =>
      match through st.2 st.1 (fun m => some (m.createChild key)) with
      | some (q, n1) => some (st.1 ++ q, n1)
      | none => none)
    (pNode, n)

/-- The method `add(const Path& path)`: the pointer returned and the receiver
afterwards. -/
def add [Inhabited T] (n : Node K T) (path : NodePath K) : Option (Loc K × Node K T) :=
  match find n path 0 with
  | none => none
  | some (some pNode, n1) => some (pNode, n1)
  | some (none, n1) =>
    match addWhile path.length n1 [] path 0 with
    | none => none
    | some ((pNode, depth), n2) => addFor n2 pNode path depth

end Node

/-- One value put on a stream by `operator<<` and taken back by `operator>>`. -/
inductive Token (K T : Type) where
  | name (k : K)
  | data (d : T)
  | count (n : Int)

/-- The template parameter `STREAM`: the values written, oldest first. -/
abbrev TokenStream (K T : Type) := List (Token K T)

namespace Node

variable {K T : Type}

mutual
/-- The method `write(os)`: the stream afterwards. -/
def write : Node K T → TokenStream K T → Option (TokenStream K T)
  | mk m_name m_data _ m_children, os =>
    let os1 := os ++ [Token.name m_name]
    let os2 := os1 ++ [Token.data m_data]
    let os3 := os2 ++ [Token.count (toInt32 m_children.length)]
    if m_children.length > 0 then writeChildren m_children os3 else some os3
/-- The loop of `write` over `children()`: `i->second->write(os)`. -/
def writeChildren : List (K × Option (Node K T)) → TokenStream K T → Option (TokenStream K T)
  | [], os => some os
  | (_, none) :: _, _ => none
  | (_, some c) :: rest, os =>
    match write c os with
    | some os1 => writeChildren rest os1
    | none => none
end

variable [LinearOrder K]

/-- The loop `for (int i = 0; i < totalChildren; ++i)` of `read`, by recursion on
the number of iterations left; `rd` is the recursive call `pNode->read(is)`. -/
def readLoop [Inhabited K] [Inhabited T]
    (rd : Node K T → TokenStream K T → Option (Node K T × TokenStream K T)) :
    Nat → Node K T → TokenStream K T → Option (Node K T × TokenStream K T)
  | 0, n, is => some (n, is)
  | k + 1, n, is =>
    match rd Node.new is with
    | none => none
    | some (pNode, is1) => readLoop rd k (n.addChild pNode) is1

/-- The method `read(is)`, by recursion on a bound of the values left on the
stream: with none left the first extraction fails.  An extraction that finds no
value of the type asked for ends the model with `none`. -/
def readFrom [Inhabited K] [Inhabited T] :
    Nat → Node K T → TokenStream K T → Option (Node K T × TokenStream K T)
  | 0, _, _ => none
  | gas + 1, n, is =>
    let n1 := n.clear
    match is with
    | Token.name nm :: Token.data d :: Token.count totalChildren :: rest =>
      let n2 := (n1.setName nm).setData d
      if totalChildren > 0 then readLoop (readFrom gas) totalChildren.toNat n2 rest
      else some (n2, rest)
    | _ => none

/-- The method `read(is)`: the receiver and the stream afterwards. -/
def read [Inhabited K] [Inhabited T] (n : Node K T) (is : TokenStream K T) :
    Option (Node K T × TokenStream K T) :=
  readFrom is.length n is

mutual
/-- The method `copyTo(dest)`: the destination afterwards. -/
def copyTo [Inhabited K] [Inhabited T] : Node K T → Node K T → Option (Node K T)
  | mk m_name m_data _ m_children, dest =>
    let d1 := dest.clear
    let d2 := d1.setName m_name
    let d3 := d2.setData m_data
    if m_children.length > 0 then copyChildren m_children d3 else some d3
/-- The loop of `copyTo` over `children()`: `c = new Node(); dest->addChild(c);
i->second->copyTo(c)`. -/
def copyChildren [Inhabited K] [Inhabited T] :
    List (K × Option (Node K T)) → Node K T → Option (Node K T)
  | [], dest => some dest
  | (_, none) :: _, _ => none
  | (_, some i_second) :: rest, dest =>
    let c : Node K T := Node.new
    let d1 := dest.addChild c
    match through d1 [c.name] (fun cc => (copyTo i_second cc).map (fun r => ((), r))) with
    | some (_, d2) => copyChildren rest d2
    | none => none
end

end Node

/-- The class `PropertyTree<K,T>` without its mutex. -/
structure PropertyTree (K T : Type) where
  m_changed : Bool
  _defaultData : T
  m_empty : Node K T
  m_root : Node K T

namespace PropertyTree

variable {K T : Type} [LinearOrder K]

/-- The constructor `PropertyTree()`; `lit` builds a `K` from a string literal. -/
def new [Inhabited T] (lit : String → K) : PropertyTree K T :=
  { m_changed := false
    _defaultData := default
    m_empty := Node.named (lit "__EMPTY__")
    m_root := (Node.named (lit "__ROOT__")).clear }

/-- The method `setChanged(f)`. -/
def setChanged (t : PropertyTree K T) (f : Bool) : PropertyTree K T :=
  { t with m_changed := f }

/-- The method `get(path)`: the data referred to and the tree afterwards. -/
def get (t : PropertyTree K T) (path : NodePath K) : Option (T × PropertyTree K T) :=
  match t.m_root.find path 0 with
  | none => none
  | some (some pNode, root) =>
    match root.deref pNode with
    | some m => some (m.data, { t with m_root := root })
    | none => none
  | some (none, root) => some (t._defaultData, { t with m_root := root })

/-- The method `node(path)`: the pointer returned and the tree afterwards. -/
def node (t : PropertyTree K T) (path : NodePath K) :
    Option (Option (Loc K) × PropertyTree K T) :=
  match t.m_root.find path 0 with
  | none => none
  | some (pNode, root) => some (pNode, { t with m_root := root })

/-- The method `set(path, data)`: the pointer returned and the tree afterwards. -/
def set [Inhabited T] (t : PropertyTree K T) (path : NodePath K) (data : T) :
    Option (Option (Loc K) × PropertyTree K T) :=
  match t.m_root.find path 0 with
  | none => none
  | some (found, root) =>
    let added : Option (Option (Loc K) × Node K T) :=
      match found with
      | some p => some (some p, root)
      | none => (root.add path).map (fun r => (some r.1, r.2))
    match added with
    | none => none
    | some (none, root1) => some (none, ({ t with m_root := root1 }).setChanged true)
    | some (some pNode, root1) =>
      match root1.through pNode (fun m => some ((), m.setData data)) with
      | none => none
      | some (_, root2) => some (some pNode, ({ t with m_root := root2 }).setChanged true)

/-- The method `exists(path)`: the answer and the tree afterwards. -/
def «exists» (t : PropertyTree K T) (path : NodePath K) : Option (Bool × PropertyTree K T) :=
  match t.m_root.find path 0 with
  | none => none
  | some (pNode, root) => some (pNode.isSome, { t with m_root := root })

/-- The method `copyTo(dest)` for a destination other than `this` (for `this`
itself the method returns at once): the destination afterwards. -/
def copyTo [Inhabited K] [Inhabited T] (t dest : PropertyTree K T) :
    Option (PropertyTree K T) :=
  match t.m_root.copyTo dest.m_root with
  | none => none
  | some root => some (({ dest with m_root := root }).setChanged true)

end PropertyTree

/-! ## Pointers handed to the tree: `getChild`, `setChild`, `absolutePath` -/

namespace PropertyTree

variable {K T : Type} [LinearOrder K]

/-- The method `getChild(node, name, default_)`: the data referred to and the
tree afterwards; `node` points into this tree or is null. -/
def getChild (t : PropertyTree K T) (node : Option (Loc K)) (name : K) (default_ : T) :
    Option (T × PropertyTree K T) :=
  match node with
  | none => some (default_, t)
  | some p =>
    (t.m_root.through p (fun m => some (m.hasChild name))).bind fun r =>
      if r.1 then
        (r.2.through p (fun m => some (m.child name))).bind fun c =>
          match c.1 with
          | some q => (c.2.deref (p ++ q)).map fun x => (x.data, { t with m_root := c.2 })
          | none => none
      else some (default_, { t with m_root := r.2 })

/-- The method `setChild(node, name, data)`: the tree afterwards; `node` points
into this tree or is null. -/
def setChild [Inhabited T] (t : PropertyTree K T) (node : Option (Loc K)) (name : K)
    (data : T) : Option (PropertyTree K T) :=
  match node with
  | none => some t
  | some p =>
    (t.m_root.through p (fun m => some (m.hasChild name))).bind fun r =>
      (if r.1 then
        (r.2.through p (fun m => some (m.child name))).bind fun c =>
          match c.1 with
          | some q => c.2.through (p ++ q) (fun x => some ((), x.setData data))
          | none => none
      else
        (r.2.through p (fun m => some (m.createChild name))).bind fun c =>
          c.2.through (p ++ c.1) (fun x => some ((), x.setData data))).map
        fun r2 => ({ t with m_root := r2.2 }).setChanged true

/-- The loop `do { path.push_back(node->name()); node = node->parent(); }
while (node != nullptr)` of `absolutePath`, by recursion on the number of keys
of the pointer: the parent of a node is the node one key up, and a parent of
the root is no node of the tree. -/
def absolutePathLoop (root : Node K T) : Nat → Loc K → NodePath K → Option (NodePath K)
  | gas, node, path =>
    match root.deref node with
    | none => none
    | some m =>
      let path1 := path ++ [m.name]
      match m.parent with
      | ParentPtr.null => some path1
      | ParentPtr.owner =>
        match gas with
        | 0 => none
        | g + 1 => absolutePathLoop root g node.dropLast path1

/-- The method `absolutePath(node)`; `node` points into this tree or is null. -/
def absolutePath (t : PropertyTree K T) (node : Option (Loc K)) : Option (NodePath K) :=
  match node with
  | none => some []
  | some p => (absolutePathLoop t.m_root p.length p []).map List.reverse

/-- The method `read(is)`: the tree and the stream afterwards. -/
def read [Inhabited K] [Inhabited T] (t : PropertyTree K T) (is : TokenStream K T) :
    Option (PropertyTree K T × TokenStream K T) :=
  match t.m_root.read is with
  | none => none
  | some (root, rest) => some (({ t with m_root := root }).setChanged true, rest)

end PropertyTree

namespace Node

variable {K T : Type} [LinearOrder K]

/-- Every node on the way along `p`, the receiver apart, is stored under its own
name and has its parent pointer set: the state `createChild` leaves. -/
def ownedLineage (n : Node K T) : Loc K → Bool
  | [] => true
  | k :: ks =>
    match ChildMap.lookup n.children k with
    | some (some c) =>
      decide (c.name = k) && decide (c.parent = ParentPtr.owner) && ownedLineage c ks
    | _ => false

/-- The receiver with the node that `p` designates replaced by `m`. -/
def put (n : Node K T) : Loc K → Node K T → Node K T
  | [], m => m
  | k :: ks, m =>
    match ChildMap.lookup n.children k with
    | some (some c) => n.setChildren (ChildMap.assign n.children k (some (put c ks m)))
    | _ => n

end Node

/-! ## Serialised form and well-formed trees -/

namespace Node
variable {K T : Type}

mutual
/-- The node with every `m_pParent`, its own included, set to `nullptr`: what is
left is the names, the data and the child maps. -/
def content : Node K T → Node K T
  | mk m_name m_data _ m_children => mk m_name m_data .null (contentChildren m_children)
/-- The child map in which every child is replaced by its `content`. -/
def contentChildren : List (K × Option (Node K T)) → List (K × Option (Node K T))
  | [] => []
  | (k, none) :: rest => (k, none) :: contentChildren rest
  | (k, some c) :: rest => (k, some (content c)) :: contentChildren rest
end

mutual
/-- No child map of the tree holds a null pointer. -/
def noNullEntry : Node K T → Bool
  | mk _ _ _ m_children => noNullEntries m_children
/-- No entry of the map is null, nor any entry below. -/
def noNullEntries : List (K × Option (Node K T)) → Bool
  | [] => true
  | (_, none) :: _ => false
  | (_, some c) :: rest => noNullEntry c && noNullEntries rest
end

mutual
/-- The values `write` puts on the stream for a tree without null entry. -/
def flat : Node K T → TokenStream K T
  | mk m_name m_data _ m_children =>
    Token.name m_name :: Token.data m_data :: Token.count (toInt32 m_children.length) ::
      flatChildren m_children
/-- The values `write` puts on the stream for the children of a map. -/
def flatChildren : List (K × Option (Node K T)) → TokenStream K T
  | [] => []
  | (_, none) :: rest => flatChildren rest
  | (_, some c) :: rest => flat c ++ flatChildren rest
end

variable [LinearOrder K]

mutual
/-- Every child map of the tree is in strictly ascending key order (the
invariant of `std::map`), has fewer than 2^31 entries, holds no null pointer
and stores each child under the child's own name. -/
def wellFormed : Node K T → Bool
  | mk _ _ _ m_children =>
    decide (List.Pairwise (fun a b => a < b) (m_children.map Prod.fst)) &&
      decide (m_children.length < 2 ^ 31) && wellFormedChildren m_children
/-- Every entry of the map is a well-formed child stored under its own name. -/
def wellFormedChildren : List (K × Option (Node K T)) → Bool
  | [] => true
  | (_, none) :: _ => false
  | (k, some c) :: rest => decide (c.name = k) && wellFormed c && wellFormedChildren rest
end

end Node

/-! ## The server: `open62541server.h` -/

/-- The type `UA_StatusCode`, a 32-bit unsigned integer. -/
abbrev UA_StatusCode := Nat

/-- The status `UA_STATUSCODE_GOOD`; `lastError()` documents it as 0. -/
def UA_STATUSCODE_GOOD : UA_StatusCode := 0

/-- Modelled from the spec: the read bit `UA_ACCESSLEVELMASK_READ` of an
access-level mask; the macro belongs to the underlying C library and is not
defined in this repository. -/
def UA_ACCESSLEVELMASK_READ : Nat := 1

/-- A C pointer to an object of the underlying library: its address, `none`
for `nullptr`. -/
abbrev Ptr := Option Nat

/-- The class `Server` without its mutex: the data members. -/
structure Server where
  m_pServer : Ptr
  m_pConfig : Ptr
  m_running : Bool
  m_callbacks : List (String × Nat)
  m_discoveryList : List (Nat × String)
  m_logins : List (String × String)
  _lastError : UA_StatusCode
  _timerMap : List (Nat × Nat)
  _customHostName : String
  _conditionMap : List (Nat × Nat)

namespace Server

/-- The accessor `lastError()`. -/
def lastError (s : Server) : UA_StatusCode := s._lastError

/-- The accessor `server()`. -/
def server (s : Server) : Ptr := s.m_pServer

/-- The accessor `running()`. -/
def running (s : Server) : Bool := s.m_running

/-- The method `stop()` of the base class: `m_running = false`. -/
def stop (s : Server) : Server := { s with m_running := false }

/-- The method `lastOK()`: `_lastError == UA_STATUSCODE_GOOD`. -/
def lastOK (s : Server) : Bool := decide (s._lastError = UA_STATUSCODE_GOOD)

/-- The method `writeAttribute(nodeId, attributeId, attr_type, attr)`: the value
returned and the server afterwards.  `uaWrite` is the library call
`__UA_Server_write`; the right-hand side of the assignment to `_lastError` is
the comparison `__UA_Server_write(...) == UA_STATUSCODE_GOOD`, a `bool`
converted to `UA_StatusCode`. -/
def writeAttribute (s : Server) (uaWrite : Ptr → Ptr → Nat → Ptr → Ptr → UA_StatusCode)
    (nodeId : Ptr) (attributeId : Nat) (attr_type attr : Ptr) : Bool × Server :=
  if s.server.isNone then (false, s)
  else
    let s1 : Server :=
      { s with
        _lastError :=
          if uaWrite s.m_pServer nodeId attributeId attr_type attr = UA_STATUSCODE_GOOD
          then 1 else 0 }
    (s1.lastOK, s1)

/-- The hook `allowAddNode` of the base class. -/
def allowAddNode (_s : Server) (_ac _sessionId _sessionContext _item : Ptr) : Bool := true

/-- The hook `allowAddReference` of the base class. -/
def allowAddReference (_s : Server) (_ac _sessionId _sessionContext _item : Ptr) : Bool := true

/-- The hook `allowDeleteNode` of the base class. -/
def allowDeleteNode (_s : Server) (_ac _sessionId _sessionContext _item : Ptr) : Bool := false

/-- The hook `allowDeleteReference` of the base class. -/
def allowDeleteReference (_s : Server) (_ac _sessionId _sessionContext _item : Ptr) : Bool :=
  true

/-- The hook `getUserAccessLevel` of the base class, a `uint8_t` mask:
`return 0`. -/
def getUserAccessLevel (_s : Server) (_ac _sessionId _sessionContext _nodeId _nodeContext : Ptr) :
    Nat := 0

/-- The hook `allowBrowseNode` of the base class. -/
def allowBrowseNode (_s : Server) (_ac _sessionId _sessionContext _nodeId _nodeContext : Ptr) :
    Bool := true

/-- The hook `allowHistoryUpdateUpdateData` of the base class. -/
def allowHistoryUpdateUpdateData (_s : Server) (_ac _sessionId _sessionContext _nodeId : Ptr)
    (_performInsertReplace : Nat) (_value : Ptr) : Bool := false

/-- The hook `allowHistoryUpdateDeleteRawModified` of the base class. -/
def allowHistoryUpdateDeleteRawModified (_s : Server) (_ac _sessionId _sessionContext _nodeId : Ptr)
    (_startTimestamp _endTimestamp : Int) (_isDeleteModified : Bool) : Bool := false

end Server

/-! ## Concrete inputs

Keys are strings taken as character lists, data are strings. -/

/-- The key type of the examples: `std::string`. -/
abbrev Key := List Char

/-- A tree `PropertyTree<std::string, std::string>` just constructed. -/
def emptyTree : PropertyTree Key String := PropertyTree.new String.toList

/-- A node named `r` without children. -/
def bareNode : Node Key String := Node.named "r".toList

/-- A node named `r` with one child `a`, made by `createChild`. -/
def oneChild : Node Key String := (bareNode.createChild "a".toList).2

/-- A node named `s` with two children `a` and `b`, made by `createChild`. -/
def twoChildren : Node Key String :=
  (((Node.named "s".toList : Node Key String).createChild "a".toList).2.createChild
    "b".toList).2

/-- A node `r` whose children under the keys`a` and `b` are both named `a`:
`r.createChild("a"); r.createChild("b"); r.child("b")->setName("a")`. -/
def renamedChild : Option (Node Key String) :=
  (((bareNode.createChild "a".toList).2.createChild "b".toList).2.through ["b".toList]
    (fun m => some ((), m.setName "a".toList))).map Prod.snd

/-- The tree after `set({"a","b"}, "x")` on a tree just constructed. -/
def lineageTree : Option (PropertyTree Key String) :=
  (emptyTree.set ["a".toList, "b".toList] "x").map Prod.snd

/-- The tree read back from what `write` produced for `lineageTree`. -/
def rereadTree : Option (PropertyTree Key String) :=
  ((lineageTree.bind fun t => t.m_root.write []).bind fun w => emptyTree.read w).map Prod.fst

/-- The tree `lineageTree`, member by member: the root has the child `a`, which
has the child `b` holding `"x"`. -/
def nestedTree : PropertyTree Key String :=
  { m_changed := true
    _defaultData := ""
    m_empty := Node.named "__EMPTY__".toList
    m_root := Node.mk "__ROOT__".toList "" ParentPtr.null
      [("a".toList, some (Node.mk "a".toList "" ParentPtr.owner
        [("b".toList, some (Node.mk "b".toList "x" ParentPtr.owner []))]))] }

/-- A server whose underlying server exists and whose last error is good. -/
def liveServer : Server :=
  { m_pServer := some 1, m_pConfig := some 2, m_running := true, m_callbacks := [],
    m_discoveryList := [], m_logins := [], _lastError := 0, _timerMap := [],
    _customHostName := "", _conditionMap := [] }

/-! ## Lemmas on pointers and `find` -/

namespace Node
variable {K T : Type} [LinearOrder K]

/-- What a call through a pointer returns is what the called function returned
on some node. -/
theorem through_eq_some {α : Type} (p : Loc K) (f : Node K T → Option (α × Node K T)) :
    ∀ (n : Node K T) (a : α) (n1 : Node K T), through n p f = some (a, n1) →
      ∃ c c1, f c = some (a, c1) := by
  induction p with
  | nil => intro n a n1 h; exact ⟨n, n1, h⟩
  | cons k ks ih =>
    intro n a n1 h
    simp only [through] at h
    split at h
    · next c hc =>
      split at h
      · next a0 c1 hth =>
        simp only [Option.some.injEq, Prod.mk.injEq] at h
        obtain ⟨rfl, -⟩ := h
        exact ih c a0 c1 hth
      · exact absurd h (by simp)
    · exact absurd h (by simp)

/-- The method `find` never returns a node: whenever it returns, the pointer is
`nullptr`. -/
theorem findFrom_null (gas : Nat) :
    ∀ (n : Node K T) (path : NodePath K) (depth : Nat) (res : Option (Loc K)) (n1 : Node K T),
      findFrom gas n path depth = some (res, n1) → res = none := by
  induction gas with
  | zero => intro n path depth res n1 h; simp [findFrom] at h
  | succ gas ih =>
    intro n path depth res n1 h
    simp only [findFrom] at h
    split at h
    · exact absurd h (by simp)
    · split at h
      · split at h
        · split at h
          · next r0 n0 hth =>
            simp only [Option.some.injEq, Prod.mk.injEq] at h
            obtain ⟨c, c1, hc⟩ := through_eq_some _ _ _ _ _ hth
            have := ih c path (depth + 1) r0 c1 hc
            subst this
            exact h.1.symm
          · exact absurd h (by simp)
        · simp only [Option.some.injEq, Prod.mk.injEq] at h
          exact h.1.symm
      · simp only [Option.some.injEq, Prod.mk.injEq] at h
        exact h.1.symm

end Node

/-! ## Lemmas on `write` and `read` -/

/-- A size below 2^31 is unchanged by the cast to `int`. -/
theorem toInt32_of_lt (n : Nat) (h : n < 2 ^ 31) : toInt32 n = (n : Int) := by
  unfold toInt32
  omega

namespace ChildMap
variable {K T : Type} [LinearOrder K]

/-- A key above every key of the map is absent from it. -/
theorem lookup_none_of_lt (m : ChildMap K T) (key : K) (h : ∀ e ∈ m, e.1 < key) :
    lookup m key = none := by
  induction m with
  | nil => rfl
  | cons e r ih =>
    obtain ⟨k, v⟩ := e
    have hlt : k < key := h (k, v) (List.mem_cons_self _ _)
    simp only [lookup]
    rw [if_neg (ne_of_lt hlt)]
    exact ih (fun e he => h e (List.mem_cons_of_mem _ he))

/-- Assigning to a key above every key of the map appends the entry. -/
theorem assign_of_lt (m : ChildMap K T) (key : K) (v : Option (Node K T))
    (h : ∀ e ∈ m, e.1 < key) : assign m key v = m ++ [(key, v)] := by
  induction m with
  | nil => rfl
  | cons e r ih =>
    obtain ⟨k, w⟩ := e
    have hlt : k < key := h (k, w) (List.mem_cons_self _ _)
    simp only [assign]
    rw [if_neg (not_lt_of_gt hlt), if_neg (ne_of_lt hlt),
      ih (fun e he => h e (List.mem_cons_of_mem _ he))]
    rfl

/-- Assigning again to the last key overwrites the last entry. -/
theorem assign_snoc_same (m : ChildMap K T) (key : K) (v w : Option (Node K T))
    (h : ∀ e ∈ m, e.1 < key) : assign (m ++ [(key, v)]) key w = m ++ [(key, w)] := by
  induction m with
  | nil => simp [assign]
  | cons e r ih =>
    obtain ⟨k, u⟩ := e
    have hlt : k < key := h (k, u) (List.mem_cons_self _ _)
    have hr := ih (fun e he => h e (List.mem_cons_of_mem _ he))
    simp only [List.cons_append, assign]
    rw [if_neg (not_lt_of_gt hlt), if_neg (ne_of_lt hlt)]
    exact congrArg (fun l => (k, u) :: l) hr

end ChildMap

namespace Node
variable {K T : Type}

/-- The name of a node given by its members. -/
@[simp] theorem name_mk (n : K) (d : T) (p : ParentPtr) (c : ChildMap K T) :
    (mk n d p c).name = n := rfl

/-- The data of a node given by its members. -/
@[simp] theorem data_mk (n : K) (d : T) (p : ParentPtr) (c : ChildMap K T) :
    (mk n d p c).data = d := rfl

/-- The parent of a node given by its members. -/
@[simp] theorem parent_mk (n : K) (d : T) (p : ParentPtr) (c : ChildMap K T) :
    (mk n d p c).parent = p := rfl

/-- The child map of a node given by its members. -/
@[simp] theorem children_mk (n : K) (d : T) (p : ParentPtr) (c : ChildMap K T) :
    (mk n d p c).children = c := rfl

/-- Taking the content keeps the name. -/
theorem name_content (c : Node K T) : c.content.name = c.name := by
  cases c; rfl

/-- The content of a node, member by member. -/
theorem content_eq (c : Node K T) :
    mk c.name c.data .null (contentChildren c.children) = c.content := by
  cases c; rfl

/-! `write` appends the serialised form of a tree without null entry. -/

mutual
theorem write_flat : ∀ (t : Node K T) (os : TokenStream K T), t.noNullEntry = true →
    write t os = some (os ++ flat t)
  | mk n d p cs, os, h => by
    have hc := writeChildren_flat cs (os ++ [Token.name n] ++ [Token.data d] ++
      [Token.count (toInt32 cs.length)]) (by simpa [noNullEntry] using h)
    simp only [write, flat]
    split
    · rw [hc]; simp
    · next hz =>
      have : cs = [] := by
        cases cs with
        | nil => rfl
        | cons a b => simp at hz
      subst this
      simp [flatChildren]
theorem writeChildren_flat : ∀ (cs : List (K × Option (Node K T))) (os : TokenStream K T),
    noNullEntries cs = true → writeChildren cs os = some (os ++ flatChildren cs)
  | [], os, _ => by simp [writeChildren, flatChildren]
  | (_, none) :: _, _, h => by simp [noNullEntries] at h
  | (_, some c) :: r, os, h => by
    simp only [noNullEntries, Bool.and_eq_true] at h
    simp only [writeChildren, flatChildren, write_flat c os h.1, writeChildren_flat r _ h.2,
      List.append_assoc]
end

variable [LinearOrder K]

/-! A well-formed tree has no null entry. -/

mutual
theorem noNullEntry_of_wellFormed : ∀ (t : Node K T), t.wellFormed = true →
    t.noNullEntry = true
  | mk _ _ _ cs, h => by
    simp only [wellFormed, Bool.and_eq_true] at h
    simpa [noNullEntry] using noNullEntries_of_wellFormed cs h.2
theorem noNullEntries_of_wellFormed : ∀ (cs : List (K × Option (Node K T))),
    wellFormedChildren cs = true → noNullEntries cs = true
  | [], _ => rfl
  | (_, none) :: _, h => by simp [wellFormedChildren] at h
  | (_, some c) :: r, h => by
    simp only [wellFormedChildren, Bool.and_eq_true] at h
    simp [noNullEntries, noNullEntry_of_wellFormed c h.1.2, noNullEntries_of_wellFormed r h.2]
end

/-- Adding a child whose name is above every key of the map appends it under
its name. -/
theorem addChild_of_lt (n : K) (d : T) (p : ParentPtr) (m : ChildMap K T) (c : Node K T)
    (h : ∀ e ∈ m, e.1 < c.name) :
    addChild (mk n d p m) c = mk n d p (m ++ [(c.name, some c)]) := by
  have hsub : ChildMap.subscript m c.name = (none, m ++ [(c.name, none)]) := by
    simp only [ChildMap.subscript, ChildMap.lookup_none_of_lt m c.name h,
      ChildMap.assign_of_lt m c.name none h]
  simp only [addChild, hasChild, children_mk, hsub, setChildren, name_mk, data_mk, parent_mk,
    Option.isSome_none, Bool.false_eq_true, if_false,
    ChildMap.assign_snoc_same m c.name none (some c) h]

variable [Inhabited K] [Inhabited T]

/-! `read` rebuilds a well-formed tree from its serialised form, given a bound
of at least the length of that form; the loop of `read` appends the children
left to those already read. -/

mutual
theorem readFrom_flat : ∀ (t : Node K T) (gas : Nat) (d : Node K T) (rest : TokenStream K T),
    t.wellFormed = true → (flat t).length ≤ gas →
    readFrom gas d (flat t ++ rest) =
      some (mk t.name t.data d.parent (contentChildren t.children), rest)
  | mk n dd p cs, gas, d, rest, h, hg => by
    cases gas with
    | zero => simp [flat] at hg
    | succ g =>
      simp only [wellFormed, Bool.and_eq_true, decide_eq_true_eq] at h
      obtain ⟨⟨hp, hlen⟩, hcs⟩ := h
      simp only [flat, List.length_cons] at hg
      simp only [flat, List.cons_append, readFrom, toInt32_of_lt _ hlen]
      cases cs with
      | nil => simp [flatChildren, contentChildren, clear, setName, setData, setChildren]
      | cons e r =>
        have hpos : ((e :: r).length : Int) > 0 := by simp
        rw [if_pos hpos]
        have := readLoop_flat (e :: r) [] n dd d.parent g rest hcs (by simpa using hp)
          (by omega)
        simpa [clear, setName, setData, setChildren] using this
theorem readLoop_flat : ∀ (todo done : List (K × Option (Node K T))) (n : K) (dd : T)
    (p : ParentPtr) (gas : Nat) (rest : TokenStream K T),
    wellFormedChildren todo = true →
    List.Pairwise (fun a b => a < b) ((done ++ todo).map Prod.fst) →
    (flatChildren todo).length ≤ gas →
    readLoop (readFrom gas) todo.length (mk n dd p done) (flatChildren todo ++ rest) =
      some (mk n dd p (done ++ contentChildren todo), rest)
  | [], done, n, dd, p, gas, rest, _, _, _ => by
    simp [readLoop, flatChildren, contentChildren]
  | (_, none) :: _, _, _, _, _, _, _, h, _, _ => by simp [wellFormedChildren] at h
  | (k, some c) :: r, done, n, dd, p, gas, rest, h, hp, hg => by
    simp only [wellFormedChildren, Bool.and_eq_true, decide_eq_true_eq] at h
    obtain ⟨⟨hname, hc⟩, hr⟩ := h
    simp only [flatChildren, List.length_append] at hg
    have hlt : ∀ e ∈ done, e.1 < c.content.name := by
      intro e he
      rw [name_content, hname]
      simp only [List.map_append, List.map_cons, List.pairwise_append, List.mem_map,
        List.mem_cons] at hp
      exact hp.2.2 e.1 ⟨e, he, rfl⟩ k (Or.inl rfl)
    have hrec := readLoop_flat r (done ++ [(k, some c.content)]) n dd p gas rest hr
      (by simpa using hp) (by omega)
    have hhead := readFrom_flat c gas (Node.new : Node K T) (flatChildren r ++ rest) hc
      (by omega)
    simp only [List.length_cons, readLoop, flatChildren, List.append_assoc, hhead]
    have hnew : (Node.new : Node K T).parent = .null := rfl
    rw [hnew, content_eq, addChild_of_lt n dd p done c.content hlt, name_content, hname, hrec]
    simp [contentChildren]
end

end Node

namespace Node
variable {K T : Type}

/-! Taking the content twice is taking it once. -/

mutual
theorem content_content : ∀ (t : Node K T), t.content.content = t.content
  | mk _ _ _ cs => by simp only [content, contentChildren_contentChildren cs]
theorem contentChildren_contentChildren : ∀ (cs : List (K × Option (Node K T))),
    contentChildren (contentChildren cs) = contentChildren cs
  | [] => rfl
  | (_, none) :: r => by simp only [contentChildren, contentChildren_contentChildren r]
  | (_, some c) :: r => by
    simp only [contentChildren, content_content c, contentChildren_contentChildren r]
end

end Node

/-! ## Lemmas on calls through pointers -/

namespace ChildMap
variable {K T : Type} [LinearOrder K]

/-- Looking up a key just assigned gives the pointer assigned. -/
theorem lookup_assign_self (m : ChildMap K T) (key : K) (v : Option (Node K T)) :
    lookup (assign m key v) key = some v := by
  induction m with
  | nil => simp [assign, lookup]
  | cons e r ih =>
    obtain ⟨k, w⟩ := e
    simp only [assign]
    split
    · simp [lookup]
    · split
      · simp [lookup]
      · next h1 h2 => simp only [lookup, if_neg h2, ih]

/-- Assigning twice to a key is assigning the second pointer. -/
theorem assign_assign (m : ChildMap K T) (key : K) (v w : Option (Node K T)) :
    assign (assign m key v) key w = assign m key w := by
  induction m with
  | nil => simp [assign]
  | cons e r ih =>
    obtain ⟨k, u⟩ := e
    simp only [assign]
    split
    · simp [assign]
    · split
      · simp [assign]
      · next h1 h2 => simp only [assign, if_neg h1, if_neg h2, ih]

end ChildMap

namespace Node
variable {K T : Type}

/-- Replacing the child map by itself changes nothing. -/
theorem setChildren_children (n : Node K T) : n.setChildren n.children = n := by
  cases n; rfl

/-- The child map after `setChildren`. -/
@[simp] theorem children_setChildren (n : Node K T) (c : ChildMap K T) :
    (n.setChildren c).children = c := rfl

/-- Replacing the child map twice is replacing it once. -/
@[simp] theorem setChildren_setChildren (n : Node K T) (c c1 : ChildMap K T) :
    (n.setChildren c).setChildren c1 = n.setChildren c1 := rfl

variable [LinearOrder K]

/-- The empty pointer designates the receiver. -/
theorem deref_nil (n : Node K T) : n.deref [] = some n := rfl

/-- Following a pointer one key at a time. -/
theorem deref_cons (n : Node K T) (k : K) (ks : Loc K) :
    n.deref (k :: ks) =
      match ChildMap.lookup n.children k with
      | some (some c) => c.deref ks
      | _ => none := by
  simp only [deref, through]
  split
  · next c hc =>
    cases h : through c ks (fun m => some (m, m)) with
    | none => simp
    | some r => simp
  · rfl

/-- A call through a pointer runs on the node designated and puts the node it
leaves back in its place. -/
theorem through_eq {α : Type} (p : Loc K) :
    ∀ (n m : Node K T) (f : Node K T → Option (α × Node K T)), n.deref p = some m →
      through n p f = (f m).map (fun r => (r.1, n.put p r.2)) := by
  induction p with
  | nil =>
    intro n m f h
    simp only [deref_nil, Option.some.injEq] at h
    subst h
    cases hf : f n with
    | none => simp [through, hf]
    | some r => simp [through, hf, put]
  | cons k ks ih =>
    intro n m f h
    rw [deref_cons] at h
    split at h
    · next c hc =>
      simp only [through, hc, put, ih c m f h]
      cases hf : f m with
      | none => simp
      | some r => simp
    · exact absurd h (by simp)

/-- The node put at a place is the node found there. -/
theorem deref_put (p : Loc K) :
    ∀ (n m m1 : Node K T), n.deref p = some m → (n.put p m1).deref p = some m1 := by
  induction p with
  | nil => intro n m m1 _; rfl
  | cons k ks ih =>
    intro n m m1 h
    rw [deref_cons] at h
    split at h
    · next c hc =>
      simp only [put, hc]
      rw [deref_cons]
      simp only [children_setChildren, ChildMap.lookup_assign_self]
      exact ih c m m1 h
    · exact absurd h (by simp)

/-- Putting twice at a place is putting the second node. -/
theorem put_put (p : Loc K) :
    ∀ (n m m1 m2 : Node K T), n.deref p = some m → (n.put p m1).put p m2 = n.put p m2 := by
  induction p with
  | nil => intro n m m1 m2 _; rfl
  | cons k ks ih =>
    intro n m m1 m2 h
    rw [deref_cons] at h
    split at h
    · next c hc =>
      simp only [put, hc, children_setChildren, ChildMap.lookup_assign_self,
        setChildren_setChildren, ChildMap.assign_assign, ih c m m1 m2 h]
    · exact absurd h (by simp)

/-- Following a pointer extended by further keys. -/
theorem deref_append (p q : Loc K) :
    ∀ (n m : Node K T), n.deref p = some m → n.deref (p ++ q) = m.deref q := by
  induction p with
  | nil =>
    intro n m h
    simp only [deref_nil, Option.some.injEq] at h
    subst h
    rfl
  | cons k ks ih =>
    intro n m h
    rw [deref_cons] at h
    split at h
    · next c hc =>
      simp only [List.cons_append]
      rw [deref_cons]
      simp only [hc]
      exact ih c m h
    · exact absurd h (by simp)

/-- A call through a pointer extended by further keys is a call through those
keys on the node the pointer designates. -/
theorem through_append {α : Type} (p q : Loc K) :
    ∀ (n m : Node K T) (f : Node K T → Option (α × Node K T)), n.deref p = some m →
      through n (p ++ q) f = (through m q f).map (fun r => (r.1, n.put p r.2)) := by
  induction p with
  | nil =>
    intro n m f h
    simp only [deref_nil, Option.some.injEq] at h
    subst h
    cases hf : through n q f with
    | none => simp [hf]
    | some r => simp [hf, put]
  | cons k ks ih =>
    intro n m f h
    rw [deref_cons] at h
    split at h
    · next c hc =>
      simp only [List.cons_append, through, hc, put, List.append_eq]
      rw [ih c m f h]
      cases hf : through m q f with
      | none => simp
      | some r => simp
    · exact absurd h (by simp)

end Node

namespace Node
variable {K T : Type} [LinearOrder K]

/-- A call through a pointer after a node was put at its place. -/
theorem through_put {α : Type} (p : Loc K) (n m m1 : Node K T)
    (f : Node K T → Option (α × Node K T)) (h : n.deref p = some m) :
    through (n.put p m1) p f = (f m1).map (fun r => (r.1, n.put p r.2)) := by
  rw [through_eq p (n.put p m1) m1 f (deref_put p n m m1 h)]
  cases hf : f m1 with
  | none => rfl
  | some r => simp [put_put p n m m1 r.2 h]

/-- A call through an extended pointer after a node was put at the place of the
pointer. -/
theorem through_append_put {α : Type} (p q : Loc K) (n m m1 : Node K T)
    (f : Node K T → Option (α × Node K T)) (h : n.deref p = some m) :
    through (n.put p m1) (p ++ q) f = (through m1 q f).map (fun r => (r.1, n.put p r.2)) := by
  rw [through_append p q (n.put p m1) m1 f (deref_put p n m m1 h)]
  cases hf : through m1 q f with
  | none => rfl
  | some r => simp [put_put p n m m1 r.2 h]

/-- The method `hasChild` on a node that has the child. -/
theorem hasChild_of_lookup (m c : Node K T) (k : K)
    (h : ChildMap.lookup m.children k = some (some c)) : m.hasChild k = (true, m) := by
  simp [hasChild, ChildMap.subscript, h, setChildren_children]

/-- The method `child` on a node that has the child. -/
theorem child_of_lookup (m c : Node K T) (k : K)
    (h : ChildMap.lookup m.children k = some (some c)) : m.child k = (some [k], m) := by
  simp [child, ChildMap.subscript, h, setChildren_children]

/-- The method `hasChild` on a node whose entry for the name is null. -/
theorem hasChild_of_null (m : Node K T) (k : K)
    (h : ChildMap.lookup m.children k = some none) : m.hasChild k = (false, m) := by
  simp [hasChild, ChildMap.subscript, h, setChildren_children]

/-- The method `hasChild` on a node without entry for the name. -/
theorem hasChild_of_absent (m : Node K T) (k : K)
    (h : ChildMap.lookup m.children k = none) :
    m.hasChild k = (false, m.setChildren (ChildMap.assign m.children k none)) := by
  simp [hasChild, ChildMap.subscript, h]

/-- A call through a pointer of one key. -/
theorem through_single {α : Type} (m c : Node K T) (k : K)
    (f : Node K T → Option (α × Node K T))
    (h : ChildMap.lookup m.children k = some (some c)) :
    through m [k] f =
      (f c).map (fun r => (r.1, m.setChildren (ChildMap.assign m.children k (some r.2)))) := by
  simp only [through, h]
  cases hf : f c with
  | none => rfl
  | some r => rfl

/-- The method `createChild` followed by `setData` on the child, for a name
under which the node has no child: the entry of the name holds the new child
with the data. -/
theorem createChild_setData [Inhabited T] (m : Node K T) (k : K) (d : T)
    (h : ∀ c, ChildMap.lookup m.children k ≠ some (some c)) :
    through (m.createChild k).2 (m.createChild k).1 (fun x => some ((), x.setData d)) =
      some ((), m.setChildren
        (ChildMap.assign m.children k (some ((newChild k : Node K T).setData d)))) := by
  have hname : (newChild k : Node K T).name = k := rfl
  have hadd : m.addChild (newChild k) =
      m.setChildren (ChildMap.assign m.children k (some (newChild k))) := by
    cases hl : ChildMap.lookup m.children k with
    | none =>
      simp [addChild, hname, hasChild_of_absent m k hl, ChildMap.assign_assign]
    | some v =>
      cases v with
      | none => simp [addChild, hname, hasChild_of_null m k hl]
      | some c => exact absurd hl (h c)
  simp only [createChild, hname, hadd]
  rw [through_single _ (newChild k) k _ (by simp [ChildMap.lookup_assign_self])]
  simp [ChildMap.assign_assign]

end Node

namespace PropertyTree
variable {K T : Type} [LinearOrder K]

/-- What `setChild` does to the node it is given: the entry of the name holds a
child with the data. -/
theorem setChild_eq [Inhabited T] (t : PropertyTree K T) (p : Loc K) (m : Node K T) (k : K)
    (d : T) (hm : t.m_root.deref p = some m) :
    ∃ (x : Node K T) (t1 : PropertyTree K T), x.data = d ∧
      t.setChild (some p) k d = some t1 ∧
      t1.m_root = t.m_root.put p (m.setChildren (ChildMap.assign m.children k (some x))) := by
  cases hl : ChildMap.lookup m.children k with
  | none =>
    refine ⟨(Node.newChild k : Node K T).setData d,
      PropertyTree.mk true t._defaultData t.m_empty (t.m_root.put p (m.setChildren
        (ChildMap.assign m.children k (some ((Node.newChild k : Node K T).setData d))))),
      rfl, ?_, rfl⟩
    have hno : ∀ c, ChildMap.lookup (m.setChildren (ChildMap.assign m.children k none)).children k
        ≠ some (some c) := by
      intro c; simp [ChildMap.lookup_assign_self]
    simp only [setChild, setChanged, Node.through_eq p _ m _ hm, Node.hasChild_of_absent m k hl,
      Option.map_some', Option.some_bind, Bool.false_eq_true, if_false,
      Node.through_put p _ m _ _ hm, Node.through_append_put p _ _ m _ _ hm,
      Node.createChild_setData _ k d hno, Node.children_setChildren,
      Node.setChildren_setChildren, ChildMap.assign_assign]
  | some v =>
    cases v with
    | none =>
      refine ⟨(Node.newChild k : Node K T).setData d,
      PropertyTree.mk true t._defaultData t.m_empty (t.m_root.put p (m.setChildren
        (ChildMap.assign m.children k (some ((Node.newChild k : Node K T).setData d))))),
      rfl, ?_, rfl⟩
      have hno : ∀ c, ChildMap.lookup m.children k ≠ some (some c) := by
        intro c; simp [hl]
      simp only [setChild, setChanged, Node.through_eq p _ m _ hm, Node.hasChild_of_null m k hl,
        Option.map_some', Option.some_bind, Bool.false_eq_true, if_false,
        Node.through_put p _ m _ _ hm, Node.through_append_put p _ _ m _ _ hm,
        Node.createChild_setData _ k d hno]
    | some c =>
      refine ⟨c.setData d,
      PropertyTree.mk true t._defaultData t.m_empty (t.m_root.put p (m.setChildren
        (ChildMap.assign m.children k (some (c.setData d))))),
      rfl, ?_, rfl⟩
      simp only [setChild, setChanged, Node.through_eq p _ m _ hm, Node.hasChild_of_lookup m c k hl,
        Option.map_some', Option.some_bind, if_true,
        Node.through_put p _ m _ _ hm, Node.through_append_put p _ _ m _ _ hm,
        Node.child_of_lookup m c k hl, Node.through_single m c k _ hl]

/-- What `getChild` returns for a node that has the child. -/
theorem getChild_eq (t : PropertyTree K T) (p : Loc K) (m x : Node K T) (k : K)
    (default_ : T) (hm : t.m_root.deref p = some m)
    (hx : ChildMap.lookup m.children k = some (some x)) :
    ∃ t2, t.getChild (some p) k default_ = some (x.data, t2) := by
  have hd : (t.m_root.put p m).deref (p ++ [k]) = some x := by
    rw [Node.deref_append p [k] _ m (Node.deref_put p _ m m hm), Node.deref_cons]
    simp [hx, Node.deref_nil]
  refine ⟨{ t with m_root := t.m_root.put p m }, ?_⟩
  simp only [getChild, Node.through_eq p _ m _ hm, Node.hasChild_of_lookup m x k hx,
    Option.map_some', Option.some_bind, if_true, Node.through_put p _ m _ _ hm,
    Node.child_of_lookup m x k hx, hd]

end PropertyTree

namespace Node
variable {K T : Type} [LinearOrder K]

/-- An owned lineage with one more key: the lineage before it is owned, and the
last key leads to a node stored under its name with its parent set. -/
theorem ownedLineage_snoc (q : Loc K) (k : K) :
    ∀ (n : Node K T), n.ownedLineage (q ++ [k]) = true →
      n.ownedLineage q = true ∧
      ∃ m, n.deref (q ++ [k]) = some m ∧ m.name = k ∧ m.parent = ParentPtr.owner := by
  induction q with
  | nil =>
    intro n h
    simp only [List.nil_append, ownedLineage] at h
    refine ⟨rfl, ?_⟩
    simp only [List.nil_append]
    rw [deref_cons]
    split at h
    · next c hc =>
      simp only [Bool.and_eq_true, decide_eq_true_eq] at h
      exact ⟨c, by simp [hc, deref_nil], h.1.1, h.1.2⟩
    · exact absurd h (by simp)
  | cons j js ih =>
    intro n h
    simp only [List.cons_append, ownedLineage] at h
    simp only [List.cons_append, ownedLineage]
    rw [deref_cons]
    split at h
    · next c hc =>
      simp only [Bool.and_eq_true, decide_eq_true_eq] at h
      obtain ⟨hq, m, hm⟩ := ih c h.2
      simp only [hc, Bool.and_eq_true, decide_eq_true_eq]
      exact ⟨⟨h.1, hq⟩, m, hm⟩
    · exact absurd h (by simp)

end Node

namespace PropertyTree
variable {K T : Type} [LinearOrder K]

/-- The loop of `absolutePath` started at the end of an owned lineage under a
root without parent collects the names from the node up to the root. -/
theorem absolutePathLoop_eq (root : Node K T) (hroot : root.parent = ParentPtr.null)
    (p : Loc K) :
    root.ownedLineage p = true → ∀ acc : NodePath K,
      absolutePathLoop root p.length p acc = some (acc ++ (root.name :: p).reverse) := by
  induction p using List.reverseRecOn with
  | nil =>
    intro _ acc
    cases hg : ([] : Loc K).length with
    | zero => simp [absolutePathLoop, Node.deref_nil, hroot]
    | succ g => simp at hg
  | append_singleton q k ih =>
    intro h acc
    obtain ⟨hq, m, hm, hname, hparent⟩ := Node.ownedLineage_snoc q k root h
    have hlen : (q ++ [k]).length = q.length + 1 := by simp
    rw [hlen, absolutePathLoop]
    simp only [hm, hparent, List.dropLast_concat, hname, ih hq]
    simp
end PropertyTree

/-- The children that `read` rebuilds have no parent: in the tree read back from
what `write` produced for the tree of `set({"a","b"}, "x")`, `absolutePath` of
the node reached by `{"a","b"}` is `{"b"}`. -/
theorem absolutePath_after_read :
    (rereadTree.bind fun t => t.absolutePath (some ["a".toList, "b".toList])) =
      some ["b".toList] := by
  rfl

/-! ## Theorems -/

/-- C1 (defect in the code): on a tree just constructed, `set(["a"], "x")`
creates node `a` and stores `"x"` in it, yet the following `get(["a"])` returns
`_defaultData`, the empty string, and not `"x"`. -/
theorem C1_get_after_set_returns_default :
    ((emptyTree.set ["a".toList] "x").map fun r => r.1) = some (some ["a".toList]) ∧
    ((emptyTree.set ["a".toList] "x").bind fun r =>
      (r.2.m_root.deref ["a".toList]).map Node.data) = some "x" ∧
    ((emptyTree.set ["a".toList] "x").bind fun r =>
      (r.2.get ["a".toList]).map Prod.fst) = some emptyTree._defaultData ∧
    emptyTree._defaultData ≠ "x" := by
  refine ⟨by rfl, by rfl, by rfl, by decide⟩

/-- C2 (defect in the code): `find` never returns the node a path resolves to.
Node `r` has the child `a`, so following `["a"]` reaches a node named `a`, yet
`find(["a"])` returns `nullptr`; and whatever the node, path and depth, a call
of `find` that returns at all returns `nullptr`. -/
theorem C2_find_returns_null_for_existing_child :
    (oneChild.deref ["a".toList]).map Node.name = some "a".toList ∧
    (oneChild.find ["a".toList] 0).map Prod.fst = some none ∧
    ∀ (n : Node Key String) (path : NodePath Key) (depth : Nat),
      (n.find path depth).bind Prod.fst = none := by
  refine ⟨by rfl, by rfl, ?_⟩
  intro n path depth
  cases h : n.find path depth with
  | none => rfl
  | some r =>
    obtain ⟨res, n1⟩ := r
    exact Node.findFrom_null _ _ _ _ _ _ h

/-- C3 (defect in the code): copying node `s`, which has the two children `a`
and `b`, into a new node leaves the destination with the name and data of `s`
but with a single child, stored under the empty key and named `b`. -/
theorem C3_copyTo_keeps_one_child_under_empty_key :
    twoChildren.totalChildren = 2 ∧
    twoChildren.children.map Prod.fst = ["a".toList, "b".toList] ∧
    twoChildren.copyTo Node.new =
      some (Node.mk "s".toList "" .null [([], some (Node.mk "b".toList "" .null []))]) := by
  refine ⟨by rfl, by rfl, by rfl⟩

/-- C4 as stated fails: node `r` holds no null entry and has two children, both
named `a`; reading back what `write` produced gives a node with a single child
named `a`. -/
theorem C4_counterexample_same_named_children :
    renamedChild.map Node.noNullEntry = some true ∧
    (renamedChild.map fun t => t.children.map fun e => e.2.map Node.name) =
      some [some "a".toList, some "a".toList] ∧
    (((renamedChild.bind fun t => t.write []).bind fun w =>
        (Node.new : Node Key String).read w).map fun r =>
          (r.1.children.map fun e => e.2.map Node.name, r.2.length)) =
      some ([some "a".toList], 0) := by
  refine ⟨by rfl, by rfl, by rfl⟩

/-- C4 amended: for every tree `t` whose child maps, at every level, hold no
null entry, store each child under the child's own name and have fewer than
2^31 entries (and are in key order, as every `std::map` is), `write` produces a
stream, and reading that stream into any node `d`, whatever follows it on the
stream, rebuilds a node with the name and the data of `t` and, recursively,
children equal in key, name and data to those of `t`; what followed is left on
the stream.  The node read into keeps its parent, the children rebuilt have
none. -/
theorem C4_read_write_round_trip {K T : Type} [LinearOrder K] [Inhabited K] [Inhabited T]
    (t d : Node K T) (rest : TokenStream K T) (h : t.wellFormed = true) :
    ∃ w r, t.write [] = some w ∧ d.read (w ++ rest) = some (r, rest) ∧
      r = Node.mk t.name t.data d.parent (Node.contentChildren t.children) ∧
      r.content = t.content := by
  refine ⟨Node.flat t, Node.mk t.name t.data d.parent (Node.contentChildren t.children), ?_, ?_,
    rfl, ?_⟩
  · simpa using Node.write_flat t [] (Node.noNullEntry_of_wellFormed t h)
  · exact Node.readFrom_flat t _ d rest h (by simp)
  · cases t with
    | mk n dd p cs =>
      simp only [Node.name_mk, Node.data_mk, Node.children_mk, Node.content,
        Node.contentChildren_contentChildren]

/-- C4 amended, at a concrete input: node `s` with the children `a` and `b` is
written and read back into node `r`. -/
theorem C4_read_write_round_trip_witness :
    twoChildren.wellFormed = true ∧
    ∃ w r, twoChildren.write [] = some w ∧ bareNode.read (w ++ []) = some (r, []) ∧
      r = Node.mk twoChildren.name twoChildren.data bareNode.parent
        (Node.contentChildren twoChildren.children) ∧
      r.content = twoChildren.content :=
  ⟨by rfl, C4_read_write_round_trip twoChildren bareNode [] (by rfl)⟩

/-- C5 (defect in the code): with an underlying server present, `writeAttribute`
returns true exactly when the underlying write did not return
`UA_STATUSCODE_GOOD`, and after a write that returned `UA_STATUSCODE_GOOD` the
value of `lastError()` is 1. -/
theorem C5_writeAttribute_inverts_status (s : Server)
    (uaWrite : Ptr → Ptr → Nat → Ptr → Ptr → UA_StatusCode)
    (nodeId : Ptr) (attributeId : Nat) (attr_type attr : Ptr)
    (h : s.server ≠ none) :
    ((s.writeAttribute uaWrite nodeId attributeId attr_type attr).1 = true ↔
      uaWrite s.m_pServer nodeId attributeId attr_type attr ≠ UA_STATUSCODE_GOOD) ∧
    (uaWrite s.m_pServer nodeId attributeId attr_type attr = UA_STATUSCODE_GOOD →
      (s.writeAttribute uaWrite nodeId attributeId attr_type attr).2.lastError = 1) := by
  have hs : s.server.isNone = false := by
    cases hp : s.server with
    | none => exact absurd hp h
    | some _ => rfl
  by_cases hw : uaWrite s.m_pServer nodeId attributeId attr_type attr = UA_STATUSCODE_GOOD
  · simp [Server.writeAttribute, hs, hw, Server.lastOK, Server.lastError, UA_STATUSCODE_GOOD]
  · simp [Server.writeAttribute, hs, hw, Server.lastOK, Server.lastError, UA_STATUSCODE_GOOD]

/-- C5 at a concrete input: a successful write on a live server returns false
and leaves `lastError()` at 1. -/
theorem C5_writeAttribute_inverts_status_witness :
    liveServer.server ≠ none ∧
    (liveServer.writeAttribute (fun _ _ _ _ _ => UA_STATUSCODE_GOOD) (some 7) 13 none
      (some 9)).1 = false ∧
    (liveServer.writeAttribute (fun _ _ _ _ _ => UA_STATUSCODE_GOOD) (some 7) 13 none
      (some 9)).2.lastError = 1 := by
  have h := C5_writeAttribute_inverts_status liveServer (fun _ _ _ _ _ => UA_STATUSCODE_GOOD)
    (some 7) 13 none (some 9) (by decide)
  refine ⟨by decide, ?_, h.2 rfl⟩
  cases hv : (liveServer.writeAttribute (fun _ _ _ _ _ => UA_STATUSCODE_GOOD) (some 7) 13 none
      (some 9)).1 with
  | false => rfl
  | true => exact absurd rfl (h.1.mp hv)

/-- C6 as stated fails: the base-class hook `allowAddNode` returns true, so the
four hooks do not all return false. -/
theorem C6_counterexample_allowAddNode :
    ¬ (liveServer.allowAddNode none (some 1) none (some 2) = false ∧
       liveServer.allowAddReference none (some 1) none (some 2) = false ∧
       liveServer.allowDeleteNode none (some 1) none (some 2) = false ∧
       liveServer.allowDeleteReference none (some 1) none (some 2) = false) := by
  decide

/-- C6 amended: with no hook overridden, `allowDeleteNode` returns false and
`allowAddNode`, `allowAddReference` and `allowDeleteReference` return true, for
every session, context and item. -/
theorem C6_default_mutation_hooks (s : Server) (ac sessionId sessionContext item : Ptr) :
    s.allowDeleteNode ac sessionId sessionContext item = false ∧
    s.allowAddNode ac sessionId sessionContext item = true ∧
    s.allowAddReference ac sessionId sessionContext item = true ∧
    s.allowDeleteReference ac sessionId sessionContext item = true :=
  ⟨rfl, rfl, rfl, rfl⟩

/-- C7 (defect in the code): with no hook overridden, `allowBrowseNode` returns
true, but `getUserAccessLevel` returns the mask 0, for every session and every
node: the read bit `UA_ACCESSLEVELMASK_READ` is clear, as is every other bit,
although the comment of `getUserAccessLevelHandler` says `Allowed by default`.
The first three facts are the calls for session 1 and node 2 on a live
server. -/
theorem C7_getUserAccessLevel_grants_no_read :
    liveServer.allowBrowseNode none (some 1) none (some 2) none = true ∧
    liveServer.getUserAccessLevel none (some 1) none (some 2) none = 0 ∧
    liveServer.getUserAccessLevel none (some 1) none (some 2) none &&&
      UA_ACCESSLEVELMASK_READ = 0 ∧
    ∀ (s : Server) (ac sessionId sessionContext nodeId nodeContext : Ptr),
      s.allowBrowseNode ac sessionId sessionContext nodeId nodeContext = true ∧
      s.getUserAccessLevel ac sessionId sessionContext nodeId nodeContext = 0 ∧
      ∀ mask : Nat,
        s.getUserAccessLevel ac sessionId sessionContext nodeId nodeContext &&& mask = 0 := by
  refine ⟨rfl, rfl, by decide, ?_⟩
  intro s ac sessionId sessionContext nodeId nodeContext
  refine ⟨rfl, rfl, ?_⟩
  intro mask
  simp [Server.getUserAccessLevel]

/-- C8: with no hook overridden, `allowHistoryUpdateUpdateData` and
`allowHistoryUpdateDeleteRawModified` return false for every session, node,
update type, value and time range. -/
theorem C8_history_update_denied (s : Server) (ac sessionId sessionContext nodeId : Ptr)
    (performInsertReplace : Nat) (value : Ptr) (startTimestamp endTimestamp : Int)
    (isDeleteModified : Bool) :
    s.allowHistoryUpdateUpdateData ac sessionId sessionContext nodeId performInsertReplace
      value = false ∧
    s.allowHistoryUpdateDeleteRawModified ac sessionId sessionContext nodeId startTimestamp
      endTimestamp isDeleteModified = false :=
  ⟨rfl, rfl⟩

/-- C9 (defect in the code): the read operations insert a null entry for a
name that is absent.  On a tree just constructed the root has no child; after
`get(["a"])`, `node(["a"])` or `exists(["a"])` its child map holds the key `a`
with a null pointer and `totalChildren()` is 1; `hasChild("a")` does the same
to a node without children. -/
theorem C9_reads_insert_null_entries :
    emptyTree.m_root.totalChildren = 0 ∧
    ((emptyTree.get ["a".toList]).map fun r => r.2.m_root.children.map Prod.fst) =
      some ["a".toList] ∧
    ((emptyTree.get ["a".toList]).map fun r => r.2.m_root.totalChildren) = some 1 ∧
    ((emptyTree.node ["a".toList]).map fun r => r.2.m_root.totalChildren) = some 1 ∧
    ((emptyTree.exists ["a".toList]).map fun r => r.2.m_root.totalChildren) = some 1 ∧
    bareNode.totalChildren = 0 ∧
    (bareNode.hasChild "a".toList).1 = false ∧
    (bareNode.hasChild "a".toList).2.totalChildren = 1 := by
  refine ⟨by rfl, by rfl, by rfl, by rfl, by rfl, by rfl, by rfl, by rfl⟩

/-- C10 (defect in the code): when the whole lineage exists, `add` has no
result.  Node `r` has the child `a`; `add(["a"])` finds `hasChild(path[0])`
true, moves to `a` and evaluates `path[1]`, which is out of range. -/
theorem C10_add_on_existing_lineage_is_undefined :
    (oneChild.deref ["a".toList]).map Node.name = some "a".toList ∧
    (Node.addWhile 1 oneChild [] ["a".toList] 0).isNone = true ∧
    (oneChild.add ["a".toList]).isNone = true := by
  refine ⟨by rfl, by rfl, by rfl⟩

/-- C11 (defect in the code): on a lineage that exists, `add` has no result
and reads past the end of the path.  In the tree `a`, `a.b` exists and
`find({"a","b"})` returns `nullptr`; the loop of `add` then follows the
existing nodes up to index 2 (as the run on the longer path shows), where the
path of two elements has no element. -/
theorem C11_add_reads_past_the_path :
    (nestedTree.m_root.deref ["a".toList, "b".toList]).map Node.name = some "b".toList ∧
    (nestedTree.m_root.find ["a".toList, "b".toList] 0).map Prod.fst = some none ∧
    ((Node.addWhile 3 nestedTree.m_root [] ["a".toList, "b".toList, "c".toList] 0).map
      Prod.fst) = some (["a".toList, "b".toList], 2) ∧
    (["a".toList, "b".toList] : NodePath Key)[2]? = none ∧
    (Node.addWhile 2 nestedTree.m_root [] ["a".toList, "b".toList] 0).isNone = true ∧
    (nestedTree.m_root.add ["a".toList, "b".toList]).isNone = true := by
  refine ⟨by rfl, by rfl, by rfl, by rfl, by rfl, by rfl⟩

/-- C12: for every tree, every node `n` of the tree (a non-null pointer), every
name `k`, data `d` and default `def`, `setChild(n, k, d)` returns, and the
`getChild(n, k, def)` that follows returns `d`, whether `n` had a child named
`k`, a null entry for `k`, or no entry. -/
theorem C12_getChild_after_setChild {K T : Type} [LinearOrder K] [Inhabited T]
    (t : PropertyTree K T) (n : Loc K) (k : K) (d default_ : T)
    (h : (t.m_root.deref n).isSome = true) :
    ∃ t1 t2, t.setChild (some n) k d = some t1 ∧
      t1.getChild (some n) k default_ = some (d, t2) := by
  obtain ⟨m, hm⟩ := Option.isSome_iff_exists.mp h
  obtain ⟨x, t1, hx, hset, hroot⟩ := PropertyTree.setChild_eq t n m k d hm
  have hm1 : t1.m_root.deref n =
      some (m.setChildren (ChildMap.assign m.children k (some x))) := by
    rw [hroot]
    exact Node.deref_put n _ m _ hm
  obtain ⟨t2, h2⟩ := PropertyTree.getChild_eq t1 n _ x k default_ hm1
    (by simp [ChildMap.lookup_assign_self])
  exact ⟨t1, t2, hset, by rw [h2, hx]⟩

/-- C12 at a concrete input: node `a` of the tree gets the child `c` with the
data `"y"`, which `getChild` then returns instead of the default. -/
theorem C12_getChild_after_setChild_witness :
    (nestedTree.m_root.deref ["a".toList]).isSome = true ∧
    ∃ t1 t2, nestedTree.setChild (some ["a".toList]) "c".toList "y" = some t1 ∧
      t1.getChild (some ["a".toList]) "c".toList "none" = some ("y", t2) :=
  ⟨by rfl, C12_getChild_after_setChild nestedTree ["a".toList] "c".toList "y" "none" (by rfl)⟩

/-- C13 as stated fails: in the tree made by `set({"a","b"}, "x")` the node
reached by `{"a","b"}` is named `b`, and `absolutePath` returns
`{"__ROOT__","a","b"}`, which is not `{"a","b"}`. -/
theorem C13_counterexample_root_name :
    lineageTree = some nestedTree ∧
    (nestedTree.m_root.deref ["a".toList, "b".toList]).map Node.name = some "b".toList ∧
    nestedTree.absolutePath (some ["a".toList, "b".toList]) =
      some ["__ROOT__".toList, "a".toList, "b".toList] ∧
    nestedTree.absolutePath (some ["a".toList, "b".toList]) ≠
      some ["a".toList, "b".toList] := by
  refine ⟨by rfl, by rfl, by rfl, by decide⟩

/-- C13 amended: when the root has no parent and every node on the way along
`p` is stored under its own name with its parent set (as `add`, `set` and
`setChild` create them), `absolutePath` of the node reached by `p` is the
name of the root followed by `p`; for a null node it is the empty path. -/
theorem C13_absolutePath_starts_at_root {K T : Type} [LinearOrder K] (t : PropertyTree K T)
    (p : Loc K) (hroot : t.m_root.parent = ParentPtr.null)
    (h : t.m_root.ownedLineage p = true) :
    t.absolutePath (some p) = some (t.m_root.name :: p) ∧ t.absolutePath none = some [] := by
  refine ⟨?_, rfl⟩
  simp [PropertyTree.absolutePath, PropertyTree.absolutePathLoop_eq t.m_root hroot p h []]

/-- C13 amended, at a concrete input: the tree made by `set({"a","b"}, "x")`. -/
theorem C13_absolutePath_starts_at_root_witness :
    nestedTree.m_root.parent = ParentPtr.null ∧
    nestedTree.m_root.ownedLineage ["a".toList, "b".toList] = true ∧
    nestedTree.absolutePath (some ["a".toList, "b".toList]) =
      some (nestedTree.m_root.name :: ["a".toList, "b".toList]) ∧
    nestedTree.absolutePath none = some [] :=
  ⟨by rfl, by rfl,
    C13_absolutePath_starts_at_root nestedTree ["a".toList, "b".toList] (by rfl) (by rfl)⟩

/-- C14: whatever the server, `stop()` leaves `running()` false and every other
data member as it was: the underlying server and configuration, the
call-backs, the discovery list, the logins, the last error, the timers, the
host name and the conditions. -/
theorem C14_stop_clears_only_running (s : Server) :
    s.stop.running = false ∧
    s.stop.m_pServer = s.m_pServer ∧
    s.stop.m_pConfig = s.m_pConfig ∧
    s.stop.m_callbacks = s.m_callbacks ∧
    s.stop.m_discoveryList = s.m_discoveryList ∧
    s.stop.m_logins = s.m_logins ∧
    s.stop.lastError = s.lastError ∧
    s.stop._timerMap = s._timerMap ∧
    s.stop._customHostName = s._customHostName ∧
    s.stop._conditionMap = s._conditionMap :=
  ⟨rfl, rfl, rfl, rfl, rfl, rfl, rfl, rfl, rfl, rfl⟩

end Open62541
